import Mathlib

/-!
Shallow embedding of the WebSocket signalling server core
(`src/config/wss.ts`): the channel registry (a JS object of JS objects),
the `send` guard, `broadcastExceptSender`, the `onMessage` dispatcher and
the disconnect cleanup `clearClient` / `onClose`.

JS objects with string keys preserve insertion order, so they are modelled
as association lists with unique keys; `objGet`, `objSet`, `objDel`
mirror property read, property assignment and `delete` respectively, and
`Object.keys` is `List.map Prod.fst`.
-/

namespace Wss

/-- A WebSocket handle: an identity plus its `readyState === OPEN` flag.
Two handles are the same connection iff they are equal. -/
structure Socket where
  sid : Nat
  isOpen : Bool
deriving DecidableEq, Repr

/-- Outbound envelope bodies, one shape per event family emitted by the
server (`wss.ts` builds these object literals inline). -/
inductive Body where
  | joinedB (channelName userId : String) (users : List String) (message : String)
  | userB (userId : String) (message : String)
  | errorB (message : String)
  | rawB (data : String)
  | welcomeB (message : String)
deriving DecidableEq, Repr

/-- The wire envelope `{ type, body }`. -/
structure Envelope where
  type : String
  body : Body
deriving DecidableEq, Repr

/-- Structure `MessagePayload` from `wss.ts`: `channelName`/`userId` are `Option`
because the runtime value may lack them; `sdp`/`candidate` are opaque
payloads. `none` models an absent (undefined/null) field; `some ""`
models a present but empty string, which JS also treats as falsy. -/
structure MessagePayload where
  channelName : Option String
  userId : Option String
  sdp : Option String
  candidate : Option String
deriving DecidableEq, Repr

/-- Structure `ParsedMessage` from `wss.ts`; `body` is `Option` because the parsed
JSON may lack it (`!body` check). -/
structure ParsedMessage where
  type : String
  body : Option MessagePayload
deriving DecidableEq, Repr

/-- An inbound raw frame: either text that fails `JSON.parse`, or the
parsed message. -/
inductive RawMessage where
  | malformed
  | parsed (pm : ParsedMessage)
deriving DecidableEq, Repr

/-- JS falsiness of an optional string field: absent, null or `""`. -/
def falsyOpt : Option String → Bool
  | none => true
  | some s => decide (s = "")

/-- Property read `o[k]` on a JS object modelled as an association list. -/
def objGet {α : Type} : List (String × α) → String → Option α
  | [], _ => none
  | (k', v) :: rest, k => if k' = k then some v else objGet rest k

/-- Property assignment `o[k] = v`: replaces the value at the first
occurrence of `k`, keeping its position, or appends at the end. -/
def objSet {α : Type} : List (String × α) → String → α → List (String × α)
  | [], k, v => [(k, v)]
  | (k', v') :: rest, k, v =>
    if k' = k then (k', v) :: rest else (k', v') :: objSet rest k v

/-- Deletion `delete o[k]`: removes the first occurrence of `k`. -/
def objDel {α : Type} : List (String × α) → String → List (String × α)
  | [], _ => []
  | (k', v') :: rest, k => if k' = k then rest else (k', v') :: objDel rest k

/-- Per-channel member map `{ userId -> WebSocket }`. -/
abbrev Members := List (String × Socket)

/-- The registry `channels : { channelName -> { userId -> WebSocket } }`. -/
abbrev Channels := List (String × Members)

/-- Function `send(wsClient, type, body)`: delivers only when
`readyState === OPEN`, otherwise drops the message. Returns the emitted
(socket, envelope) deliveries. -/
def send (wsClient : Socket) (type : String) (body : Body) :
    List (Socket × Envelope) :=
  if wsClient.isOpen then [(wsClient, ⟨type, body⟩)] else []

/-- Function `broadcastExceptSender(channelName, senderId, eventType, data)`:
missing channel is a silent no-op; otherwise iterates the member map in
key order, skips the sender's userId, skips non-open sockets, sends to
the rest. -/
def broadcastExceptSender (channels : Channels) (channelName senderId : String)
    (eventType : String) (data : Body) : List (Socket × Envelope) :=
  match objGet channels channelName with
  | none => []
  | some clients =>
    clients.foldl
      (fun acc p =>
        if p.1 ≠ senderId then
          if p.2.isOpen then acc ++ send p.2 eventType data else acc
        else acc)
      []

/-- The `"join"` branch of `onMessage`: create the channel if absent,
bind `(channelName, userId)` to the socket, reply `joined` with the
channel's current user list, broadcast `user_joined` to the others. -/
def handleJoin (channels : Channels) (socket : Socket)
    (channelName userId : String) : Channels × List (Socket × Envelope) :=
  let channels1 := match objGet channels channelName with
    | none => objSet channels channelName []
    | some _ => channels
  let members := (objGet channels1 channelName).getD []
  let channels2 := objSet channels1 channelName (objSet members userId socket)
  let userIds := ((objGet channels2 channelName).getD []).map (fun p => p.1)
  (channels2,
    send socket "joined"
      (.joinedB channelName userId userIds ("Joined channel " ++ channelName))
    ++ broadcastExceptSender channels2 channelName userId "user_joined"
      (.userB userId ("User " ++ userId ++ " joined the channel")))

/-- The `"quit"` branch of `onMessage`: only if the binding exists,
delete it, drop the channel when it became empty, then broadcast
`user_left` (over the updated registry). -/
def handleQuit (channels : Channels) (channelName userId : String) :
    Channels × List (Socket × Envelope) :=
  match objGet channels channelName with
  | none => (channels, [])
  | some members =>
    match objGet members userId with
    | none => (channels, [])
    | some _ =>
      let members2 := objDel members userId
      let channels2 :=
        if members2 = [] then objDel channels channelName
        else objSet channels channelName members2
      (channels2,
        broadcastExceptSender channels2 channelName userId "user_left"
          (.userB userId ("User " ++ userId ++ " left the channel")))

/-- Function `onMessage(socket, message)`: parse, validate
`body`/`channelName`/`userId` by falsiness, then dispatch on `type`.
Returns the updated registry and the emitted deliveries. -/
def onMessage (channels : Channels) (socket : Socket) (msg : RawMessage) :
    Channels × List (Socket × Envelope) :=
  match msg with
  | .malformed =>
    (channels, send socket "error" (.errorB "Invalid JSON format"))
  | .parsed pm =>
    match pm.body with
    | none =>
      (channels,
        send socket "error"
          (.errorB "Missing required fields: channelName, userId"))
    | some body =>
      if falsyOpt body.channelName || falsyOpt body.userId then
        (channels,
          send socket "error"
            (.errorB "Missing required fields: channelName, userId"))
      else
        let channelName := body.channelName.getD ""
        let userId := body.userId.getD ""
        if pm.type = "join" then
          handleJoin channels socket channelName userId
        else if pm.type = "quit" then
          handleQuit channels channelName userId
        else if pm.type = "send_offer" then
          if falsyOpt body.sdp then
            (channels, send socket "error" (.errorB "Missing SDP in offer"))
          else
            (channels,
              broadcastExceptSender channels channelName userId
                "offer_sdp_recieved" (.rawB (body.sdp.getD "")))
        else if pm.type = "send_answer" then
          if falsyOpt body.sdp then
            (channels, send socket "error" (.errorB "Missing SDP in answer"))
          else
            (channels,
              broadcastExceptSender channels channelName userId
                "answer_sdp_recieved" (.rawB (body.sdp.getD "")))
        else if pm.type = "send_ice_candidate" then
          if falsyOpt body.candidate then
            (channels,
              send socket "error" (.errorB "Missing candidate in ICE message"))
          else
            (channels,
              broadcastExceptSender channels channelName userId
                "ice_candidate_recieved" (.rawB (body.candidate.getD "")))
        else
          (channels,
            send socket "error" (.errorB ("Unknown message type: " ++ pm.type)))

/-- Inner loop of `clearClient` over the snapshot
`Object.keys(channels[channelName])`: delete each entry whose bound
socket `===` the disconnecting socket. -/
def clearMembers (socket : Socket) : Members → List String → Members
  | members, [] => members
  | members, uid :: rest =>
    match objGet members uid with
    | some s =>
      if s = socket then clearMembers socket (objDel members uid) rest
      else clearMembers socket members rest
    | none => clearMembers socket members rest

/-- Outer loop of `clearClient` over the snapshot `Object.keys(channels)`:
clear each channel's members; the channel entry is deleted exactly when a
removal emptied it (the JS empties check runs right after a delete). -/
def clearClientGo (socket : Socket) : Channels → List String → Channels
  | channels, [] => channels
  | channels, ch :: rest =>
    match objGet channels ch with
    | none => clearClientGo socket channels rest
    | some members =>
      let members2 := clearMembers socket members (members.map (fun p => p.1))
      let channels2 :=
        if members2 = [] ∧ members ≠ [] then objDel channels ch
        else objSet channels ch members2
      clearClientGo socket channels2 rest

/-- Function `clearClient(socket)`: remove every `(channel, userId)` binding whose
handle is the given socket, dropping channels emptied by the removals. -/
def clearClient (channels : Channels) (socket : Socket) : Channels :=
  clearClientGo socket channels (channels.map (fun p => p.1))

/-- Function `onClose(socket, reason)`: debug-log and `clearClient` only — the
close handler emits no envelopes. -/
def onClose (channels : Channels) (socket : Socket) :
    Channels × List (Socket × Envelope) :=
  (clearClient channels socket, [])

/-- One externally driven event against the registry. -/
inductive Op where
  | msg (socket : Socket) (raw : RawMessage)
  | close (socket : Socket)
deriving DecidableEq, Repr

/-- Registry transition of one event (emissions discarded). -/
def step (channels : Channels) : Op → Channels
  | .msg s r => (onMessage channels s r).1
  | .close s => (clearClient channels s)

/-- Run a sequence of events from the empty registry. -/
def run (ops : List Op) : Channels := ops.foldl step []

/-- The binding a `(channel, userId)` pair resolves to, if any. -/
def getBinding (channels : Channels) (channelName userId : String) :
    Option Socket :=
  match objGet channels channelName with
  | none => none
  | some members => objGet members userId

/-- Registry well-formedness inherited from JS objects: channel keys are
unique and each member map's keys are unique. -/
def WF (channels : Channels) : Prop :=
  (channels.map (fun p => p.1)).Nodup ∧
  ∀ c ∈ channels, ((c.2.map (fun p => p.1)).Nodup)

/-- The spec's registry invariant: no channel entry with zero members. -/
def NoEmpty (channels : Channels) : Prop :=
  ∀ c ∈ channels, c.2 ≠ []

end Wss

namespace Wss

/-- Unfolding of falsiness on a present field. -/
theorem falsyOpt_some (s : String) : falsyOpt (some s) = decide (s = "") := rfl

/-- The two error messages can never coincide, whatever the unknown type. -/
theorem missing_ne_unknown (t : String) :
    "Missing required fields: channelName, userId" ≠
      "Unknown message type: " ++ t := by
  intro h
  have h2 := congrArg String.data h
  have h3 : ("Unknown message type: " ++ t).data =
      'U' :: ("nknown message type: " ++ t).data := rfl
  have h4 : ("Missing required fields: channelName, userId" : String).data =
      'M' :: ("issing required fields: channelName, userId" : String).data := rfl
  rw [h3, h4] at h2
  simp at h2

/-- Claim C6: a `quit` naming a (channel, userId) pair not present in the
registry is a complete no-op: registry unchanged, no `user_left`
broadcast, no error to the sender. -/
theorem quit_nonmember_noop (chs : Channels) (s : Socket) (ch uid : String)
    (sdpo cando : Option String) (hch : ch ≠ "") (huid : uid ≠ "")
    (hno : getBinding chs ch uid = none) :
    onMessage chs s (.parsed ⟨"quit", some ⟨some ch, some uid, sdpo, cando⟩⟩) =
      (chs, []) := by
  rcases h : objGet chs ch with _ | mem
  · simp [onMessage, falsyOpt_some, hch, huid, handleQuit, h]
  · have hm : objGet mem uid = none := by simpa [getBinding, h] using hno
    simp [onMessage, falsyOpt_some, hch, huid, handleQuit, h, hm]

/-- Witness for C6 at a concrete registry and absent pair. -/
theorem quit_nonmember_noop_witness :
    onMessage [("c1", [("alice", ⟨0, true⟩)])] ⟨1, true⟩
        (.parsed ⟨"quit", some ⟨some "c2", some "bob", none, none⟩⟩) =
      ([("c1", [("alice", ⟨0, true⟩)])], []) :=
  quit_nonmember_noop _ _ _ _ _ _ (by decide) (by decide) (by decide)

/-- Claim C7: a frame that fails to decode — malformed JSON, missing
`body`, or falsy `body.channelName`/`body.userId` — yields exactly one
`error` envelope to the sender with the corresponding message, and the
registry is unchanged. -/
theorem decode_failure_error (chs : Channels) (s : Socket)
    (hopen : s.isOpen = true) :
    onMessage chs s .malformed =
      (chs, [(s, ⟨"error", .errorB "Invalid JSON format"⟩)]) ∧
    (∀ t : String, onMessage chs s (.parsed ⟨t, none⟩) =
      (chs, [(s, ⟨"error",
        .errorB "Missing required fields: channelName, userId"⟩)])) ∧
    (∀ (t : String) (b : MessagePayload),
      falsyOpt b.channelName = true ∨ falsyOpt b.userId = true →
      onMessage chs s (.parsed ⟨t, some b⟩) =
        (chs, [(s, ⟨"error",
          .errorB "Missing required fields: channelName, userId"⟩)])) := by
  refine ⟨by simp [onMessage, send, hopen], fun t => by simp [onMessage, send, hopen], ?_⟩
  intro t b hb
  have hcond : (falsyOpt b.channelName || falsyOpt b.userId) = true := by
    rcases hb with h | h <;> simp [h]
  simp [onMessage, send, hopen, hcond]

/-- Witness for C7 at a concrete malformed frame. -/
theorem decode_failure_error_witness :
    onMessage [] ⟨0, true⟩ .malformed =
      ([], [(⟨0, true⟩, ⟨"error", .errorB "Invalid JSON format"⟩)]) :=
  (decode_failure_error [] ⟨0, true⟩ rfl).1

/-- Claim C8: a relay event whose required payload field is missing gets
the event-specific error back to the sender, nothing is broadcast, and
the registry is unchanged. -/
theorem relay_missing_payload_error (chs : Channels) (s : Socket)
    (ch uid : String) (hopen : s.isOpen = true) (hch : ch ≠ "")
    (huid : uid ≠ "") :
    (∀ sdpo cando, falsyOpt sdpo = true →
      onMessage chs s
          (.parsed ⟨"send_offer", some ⟨some ch, some uid, sdpo, cando⟩⟩) =
        (chs, [(s, ⟨"error", .errorB "Missing SDP in offer"⟩)])) ∧
    (∀ sdpo cando, falsyOpt sdpo = true →
      onMessage chs s
          (.parsed ⟨"send_answer", some ⟨some ch, some uid, sdpo, cando⟩⟩) =
        (chs, [(s, ⟨"error", .errorB "Missing SDP in answer"⟩)])) ∧
    (∀ sdpo cando, falsyOpt cando = true →
      onMessage chs s
          (.parsed ⟨"send_ice_candidate",
            some ⟨some ch, some uid, sdpo, cando⟩⟩) =
        (chs, [(s, ⟨"error",
          .errorB "Missing candidate in ICE message"⟩)])) := by
  refine ⟨?_, ?_, ?_⟩ <;> intro sdpo cando hf <;>
    simp [onMessage, send, hopen, falsyOpt_some, hch, huid, hf]

/-- Witness for C8 at a concrete offer with no sdp. -/
theorem relay_missing_payload_error_witness :
    onMessage [] ⟨0, true⟩
        (.parsed ⟨"send_offer", some ⟨some "c1", some "bob", none, none⟩⟩) =
      ([], [(⟨0, true⟩, ⟨"error", .errorB "Missing SDP in offer"⟩)]) :=
  (relay_missing_payload_error [] ⟨0, true⟩ "c1" "bob" rfl (by decide)
    (by decide)).1 none none rfl

/-- Claim C9: a relay event with its payload present but naming a channel
absent from the registry is a silent no-op: no delivery, no error, no
state change. -/
theorem relay_missing_channel_noop (chs : Channels) (s : Socket)
    (ch uid : String) (hch : ch ≠ "") (huid : uid ≠ "")
    (hnone : objGet chs ch = none) :
    (∀ v cando, v ≠ "" →
      onMessage chs s
          (.parsed ⟨"send_offer", some ⟨some ch, some uid, some v, cando⟩⟩) =
        (chs, [])) ∧
    (∀ v cando, v ≠ "" →
      onMessage chs s
          (.parsed ⟨"send_answer", some ⟨some ch, some uid, some v, cando⟩⟩) =
        (chs, [])) ∧
    (∀ v sdpo, v ≠ "" →
      onMessage chs s
          (.parsed ⟨"send_ice_candidate",
            some ⟨some ch, some uid, sdpo, some v⟩⟩) =
        (chs, [])) := by
  refine ⟨?_, ?_, ?_⟩ <;> intro v o hv <;>
    simp [onMessage, falsyOpt_some, hch, huid, hv, broadcastExceptSender, hnone]

/-- Witness for C9 at a concrete offer into an absent channel. -/
theorem relay_missing_channel_noop_witness :
    onMessage [("c1", [("alice", ⟨0, true⟩)])] ⟨1, true⟩
        (.parsed ⟨"send_offer",
          some ⟨some "nochan", some "bob", some "SDP", none⟩⟩) =
      ([("c1", [("alice", ⟨0, true⟩)])], []) :=
  (relay_missing_channel_noop _ _ "nochan" "bob" (by decide) (by decide)
    (by decide)).1 "SDP" none (by decide)

/-- Claim C10: required-field validation runs before type dispatch and
tests falsiness: any message — of any type, including unrecognized
ones — whose `channelName` or `userId` is absent or the empty string
gets the missing-fields error, never the unknown-type error, and the
registry is unchanged. -/
theorem validation_before_dispatch (chs : Channels) (s : Socket)
    (hopen : s.isOpen = true) :
    ∀ (t : String) (b : MessagePayload),
      falsyOpt b.channelName = true ∨ falsyOpt b.userId = true →
      onMessage chs s (.parsed ⟨t, some b⟩) =
        (chs, [(s, ⟨"error",
          .errorB "Missing required fields: channelName, userId"⟩)]) ∧
      (s, Envelope.mk "error"
          (.errorB ("Unknown message type: " ++ t))) ∉
        (onMessage chs s (.parsed ⟨t, some b⟩)).2 := by
  intro t b hb
  have hcond : (falsyOpt b.channelName || falsyOpt b.userId) = true := by
    rcases hb with h | h <;> simp [h]
  have heq : onMessage chs s (.parsed ⟨t, some b⟩) =
      (chs, [(s, ⟨"error",
        .errorB "Missing required fields: channelName, userId"⟩)]) := by
    simp [onMessage, send, hopen, hcond]
  refine ⟨heq, ?_⟩
  rw [heq]
  intro hmem
  simp only [List.mem_singleton, Prod.mk.injEq, Envelope.mk.injEq,
    Body.errorB.injEq] at hmem
  exact missing_ne_unknown t hmem.2.2.symm

/-- Witness for C10: an unknown type with an empty channelName. -/
theorem validation_before_dispatch_witness :
    onMessage [] ⟨0, true⟩
        (.parsed ⟨"bogus", some ⟨some "", some "alice", none, none⟩⟩) =
      ([], [(⟨0, true⟩, ⟨"error",
        .errorB "Missing required fields: channelName, userId"⟩)]) :=
  (validation_before_dispatch [] ⟨0, true⟩ rfl "bogus"
    ⟨some "", some "alice", none, none⟩ (Or.inl rfl)).1

end Wss
namespace Wss

/-- Reading back the key just written. -/
theorem objGet_objSet_self {α : Type} (l : List (String × α)) (k : String)
    (v : α) : objGet (objSet l k v) k = some v := by
  induction l with
  | nil => simp [objSet, objGet]
  | cons p rest ih =>
    obtain ⟨k', v'⟩ := p
    by_cases h : k' = k
    · simp [objSet, objGet, h]
    · simp [objSet, objGet, h, ih]

/-- Writing one key does not disturb reads of another. -/
theorem objGet_objSet_ne {α : Type} (l : List (String × α)) (k k' : String)
    (v : α) (h : k' ≠ k) : objGet (objSet l k v) k' = objGet l k' := by
  have hne : ¬(k = k') := fun hh => h hh.symm
  induction l with
  | nil => simp [objSet, objGet, hne]
  | cons p rest ih =>
    obtain ⟨k0, v0⟩ := p
    by_cases h0 : k0 = k
    · subst h0
      have hne0 : ¬(k0 = k') := hne
      simp [objSet, objGet, hne0]
    · simp only [objSet, if_neg h0, objGet]
      by_cases h1 : k0 = k'
      · simp [h1]
      · simp [h1, ih]

/-- Two successive writes to the same key collapse to the second. -/
theorem objSet_objSet {α : Type} (l : List (String × α)) (k : String)
    (v1 v2 : α) : objSet (objSet l k v1) k v2 = objSet l k v2 := by
  induction l with
  | nil => simp [objSet]
  | cons p rest ih =>
    obtain ⟨k', v'⟩ := p
    by_cases h : k' = k
    · simp [objSet, h]
    · simp [objSet, h, ih]

/-- A write never produces the empty object. -/
theorem objSet_ne_nil {α : Type} (l : List (String × α)) (k : String)
    (v : α) : objSet l k v ≠ [] := by
  cases l with
  | nil => simp [objSet]
  | cons p rest =>
    obtain ⟨k', v'⟩ := p
    by_cases h : k' = k <;> simp [objSet, h]

/-- Every entry after a write was already there or carries the new value. -/
theorem mem_objSet_weak {α : Type} {l : List (String × α)} {k : String}
    {v : α} {p : String × α} (hp : p ∈ objSet l k v) : p ∈ l ∨ p.2 = v := by
  induction l with
  | nil =>
    simp [objSet] at hp
    simp [hp]
  | cons q rest ih =>
    obtain ⟨k', v'⟩ := q
    by_cases h : k' = k
    · simp only [objSet, if_pos h] at hp
      rcases List.mem_cons.mp hp with hp | hp
      · right; rw [hp]
      · left; exact List.mem_cons_of_mem _ hp
    · simp only [objSet, if_neg h] at hp
      rcases List.mem_cons.mp hp with hp | hp
      · left; rw [hp]; exact List.mem_cons_self _ _
      · rcases ih hp with h2 | h2
        · left; exact List.mem_cons_of_mem _ h2
        · right; exact h2

/-- A successful read exhibits a member entry. -/
theorem objGet_mem {α : Type} {l : List (String × α)} {k : String} {v : α}
    (h : objGet l k = some v) : (k, v) ∈ l := by
  induction l with
  | nil => simp [objGet] at h
  | cons q rest ih =>
    obtain ⟨k', v'⟩ := q
    by_cases h0 : k' = k
    · subst h0
      simp [objGet] at h
      simp [h]
    · simp only [objGet, if_neg h0] at h
      exact List.mem_cons_of_mem _ (ih h)

/-- A read misses exactly when the key is absent. -/
theorem objGet_none_iff {α : Type} (l : List (String × α)) (k : String) :
    objGet l k = none ↔ k ∉ l.map (fun p => p.1) := by
  induction l with
  | nil => simp [objGet]
  | cons q rest ih =>
    obtain ⟨k', v'⟩ := q
    by_cases h0 : k' = k
    · subst h0
      simp [objGet]
    · have hne : ¬(k = k') := fun hh => h0 hh.symm
      simp [objGet, h0, ih, hne]

/-- With unique keys, membership determines the read. -/
theorem objGet_of_mem_nodup {α : Type} {l : List (String × α)} {k : String}
    {v : α} (hn : (l.map (fun p => p.1)).Nodup) (hm : (k, v) ∈ l) :
    objGet l k = some v := by
  induction l with
  | nil => simp at hm
  | cons q rest ih =>
    obtain ⟨k', v'⟩ := q
    simp only [List.map_cons, List.nodup_cons] at hn
    rcases List.mem_cons.mp hm with hq | hq
    · rw [Prod.mk.injEq] at hq
      obtain ⟨hk, hv⟩ := hq
      simp [objGet, hk, hv]
    · by_cases h0 : k' = k
      · exfalso
        apply hn.1
        rw [h0]
        exact List.mem_map.mpr ⟨(k, v), hq, rfl⟩
      · simp only [objGet, if_neg h0]
        exact ih hn.2 hq

/-- Deletion yields a sublist. -/
theorem objDel_sublist {α : Type} (l : List (String × α)) (k : String) :
    List.Sublist (objDel l k) l := by
  induction l with
  | nil => simp [objDel]
  | cons q rest ih =>
    obtain ⟨k', v'⟩ := q
    by_cases h : k' = k
    · simp only [objDel, if_pos h]
      exact List.sublist_cons_self _ _
    · simp only [objDel, if_neg h]
      exact List.Sublist.cons₂ _ ih

/-- Entries surviving a delete were already present. -/
theorem mem_objDel {α : Type} {l : List (String × α)} {k : String}
    {p : String × α} (hp : p ∈ objDel l k) : p ∈ l :=
  (objDel_sublist l k).mem hp

/-- With unique keys, deletion removes the key entirely. -/
theorem keys_objDel_not_mem {α : Type} {l : List (String × α)} {k : String}
    (hn : (l.map (fun p => p.1)).Nodup) :
    k ∉ (objDel l k).map (fun p => p.1) := by
  induction l with
  | nil => simp [objDel]
  | cons q rest ih =>
    obtain ⟨k', v'⟩ := q
    simp only [List.map_cons, List.nodup_cons] at hn
    by_cases h : k' = k
    · simp only [objDel, if_pos h]
      rw [← h]
      exact hn.1
    · simp only [objDel, if_neg h, List.map_cons, List.mem_cons]
      rintro (hh | hh)
      · exact h hh.symm
      · exact ih hn.2 hh

/-- Writing an existing key leaves the key list unchanged. -/
theorem keys_objSet_of_mem {α : Type} {l : List (String × α)} {k : String}
    (v : α) (hk : k ∈ l.map (fun p => p.1)) :
    (objSet l k v).map (fun p => p.1) = l.map (fun p => p.1) := by
  induction l with
  | nil => simp at hk
  | cons q rest ih =>
    obtain ⟨k', v'⟩ := q
    by_cases h : k' = k
    · simp [objSet, h]
    · simp only [List.map_cons, List.mem_cons] at hk
      rcases hk with hk | hk
      · exact absurd hk.symm h
      · simp [objSet, h, ih hk]

/-- Writing a fresh key appends it to the key list. -/
theorem keys_objSet_of_not_mem {α : Type} {l : List (String × α)} {k : String}
    (v : α) (hk : k ∉ l.map (fun p => p.1)) :
    (objSet l k v).map (fun p => p.1) = l.map (fun p => p.1) ++ [k] := by
  induction l with
  | nil => simp [objSet]
  | cons q rest ih =>
    obtain ⟨k', v'⟩ := q
    simp only [List.map_cons, List.mem_cons] at hk
    push_neg at hk
    have h1 : ¬(k' = k) := fun hh => hk.1 hh.symm
    simp [objSet, h1, ih hk.2]

/-- Writes preserve uniqueness of keys. -/
theorem nodup_keys_objSet {α : Type} {l : List (String × α)} (k : String)
    (v : α) (hn : (l.map (fun p => p.1)).Nodup) :
    ((objSet l k v).map (fun p => p.1)).Nodup := by
  by_cases hk : k ∈ l.map (fun p => p.1)
  · rw [keys_objSet_of_mem v hk]; exact hn
  · rw [keys_objSet_of_not_mem v hk]
    simp [List.nodup_append, hn, hk]

/-- With unique keys, a written object holds exactly one entry at the key. -/
theorem countP_key_objSet {α : Type} (l : List (String × α)) (k : String)
    (v : α) (hn : (l.map (fun p => p.1)).Nodup) :
    (objSet l k v).countP (fun p => decide (p.1 = k)) = 1 := by
  induction l with
  | nil => simp [objSet]
  | cons q rest ih =>
    obtain ⟨k', v'⟩ := q
    simp only [List.map_cons, List.nodup_cons] at hn
    by_cases h : k' = k
    · have hz : rest.countP (fun p => decide (p.1 = k)) = 0 := by
        rw [List.countP_eq_zero]
        intro p hp hpk
        apply hn.1
        rw [h]
        simp only [decide_eq_true_eq] at hpk
        exact hpk ▸ List.mem_map.mpr ⟨p, hp, rfl⟩
      simp [objSet, h, List.countP_cons, hz]
    · simp [objSet, h, List.countP_cons, ih hn.2]

/-- With unique keys, an entry after a write is an old entry at another
key or exactly the written pair. -/
theorem mem_objSet_nodup {α : Type} {l : List (String × α)} {k : String}
    {v : α} {p : String × α} (hn : (l.map (fun p => p.1)).Nodup)
    (hp : p ∈ objSet l k v) : (p ∈ l ∧ p.1 ≠ k) ∨ p = (k, v) := by
  induction l with
  | nil =>
    simp [objSet] at hp
    right
    exact hp
  | cons q rest ih =>
    obtain ⟨k', v'⟩ := q
    simp only [List.map_cons, List.nodup_cons] at hn
    by_cases h : k' = k
    · simp only [objSet, if_pos h] at hp
      rcases List.mem_cons.mp hp with hp | hp
      · right; rw [hp, h]
      · left
        refine ⟨List.mem_cons_of_mem _ hp, ?_⟩
        intro hpk
        apply hn.1
        rw [h, ← hpk]
        exact List.mem_map.mpr ⟨p, hp, rfl⟩
    · simp only [objSet, if_neg h] at hp
      rcases List.mem_cons.mp hp with hp | hp
      · left
        constructor
        · rw [hp]; exact List.mem_cons_self _ _
        · rw [hp]; exact h
      · rcases ih hn.2 hp with ⟨h1, h2⟩ | h1
        · exact Or.inl ⟨List.mem_cons_of_mem _ h1, h2⟩
        · exact Or.inr h1

end Wss
namespace Wss

/-- The broadcast fold appends one delivery per open non-sender member. -/
theorem foldl_broadcast (sender t : String) (d : Body) (clients : Members)
    (acc : List (Socket × Envelope)) :
    clients.foldl
      (fun acc p =>
        if p.1 ≠ sender then
          if p.2.isOpen then acc ++ send p.2 t d else acc
        else acc) acc =
    acc ++ (clients.filter (fun p => decide (p.1 ≠ sender) && p.2.isOpen)).map
      (fun p => (p.2, ⟨t, d⟩)) := by
  induction clients generalizing acc with
  | nil => simp
  | cons q rest ih =>
    rw [List.foldl_cons]
    by_cases h1 : q.1 = sender
    · rw [List.filter_cons_of_neg (by simp [h1]), if_neg (fun hc => hc h1)]
      exact ih acc
    · rw [if_pos h1]
      by_cases h2 : q.2.isOpen
      · rw [if_pos h2, List.filter_cons_of_pos (by simp [h1, h2])]
        rw [show send q.2 t d = [(q.2, Envelope.mk t d)] from by
          simp [send, h2]]
        rw [ih (acc ++ [(q.2, Envelope.mk t d)])]
        simp
      · rw [if_neg h2, List.filter_cons_of_neg (by simp [h2])]
        exact ih acc

/-- A broadcast into a present channel delivers the envelope to exactly
the open members whose userId differs from the sender's. -/
theorem broadcast_eq (chs : Channels) (ch sender t : String) (d : Body)
    (mem : Members) (h : objGet chs ch = some mem) :
    broadcastExceptSender chs ch sender t d =
      (mem.filter (fun p => decide (p.1 ≠ sender) && p.2.isOpen)).map
        (fun p => (p.2, ⟨t, d⟩)) := by
  simp only [broadcastExceptSender, h]
  rw [foldl_broadcast]
  simp

/-- Every broadcast delivery carries the broadcast's event type. -/
theorem broadcast_type (chs : Channels) (ch sid t : String) (d : Body) :
    ∀ e ∈ broadcastExceptSender chs ch sid t d, e.2.type = t := by
  intro e he
  rcases hg : objGet chs ch with _ | mem
  · simp [broadcastExceptSender, hg] at he
  · rw [broadcast_eq _ _ _ _ _ _ hg] at he
    obtain ⟨p, _, hp⟩ := List.mem_map.mp he
    rw [← hp]

/-- A delivery made by `send` carries the given event type. -/
theorem send_type (s : Socket) (t : String) (b : Body) :
    ∀ e ∈ send s t b, e.2.type = t := by
  intro e he
  by_cases h : s.isOpen
  · simp only [send, if_pos h, List.mem_singleton] at he
    rw [he]
  · simp [send, h] at he

/-- With unique keys and the sender present, excluding the sender keeps
all members but one. -/
theorem length_filter_ne_sub_one (mem : Members) (sender : String)
    (hn : (mem.map (fun p => p.1)).Nodup)
    (hs : sender ∈ mem.map (fun p => p.1)) :
    (mem.filter (fun p => decide (p.1 ≠ sender))).length = mem.length - 1 := by
  induction mem with
  | nil => simp at hs
  | cons q rest ih =>
    simp only [List.map_cons, List.nodup_cons] at hn
    by_cases h : q.1 = sender
    · have hrest : rest.filter (fun p => decide (p.1 ≠ sender)) = rest := by
        apply List.filter_eq_self.mpr
        intro p hp
        have hpne : p.1 ≠ sender := by
          intro hps
          apply hn.1
          rw [h, ← hps]
          exact List.mem_map.mpr ⟨p, hp, rfl⟩
        simp [hpne]
      rw [List.filter_cons_of_neg (by simp [h]), hrest]
      simp
    · have hs2 : sender ∈ rest.map (fun p => p.1) := by
        rcases List.mem_cons.mp hs with h1 | h1
        · exact absurd h1.symm h
        · exact h1
      have hpos : 0 < rest.length := by
        rcases List.mem_map.mp hs2 with ⟨p, hp, _⟩
        exact List.length_pos.mpr (List.ne_nil_of_mem hp)
      rw [List.filter_cons_of_pos (by simp [h])]
      simp only [List.length_cons]
      rw [ih hn.2 hs2]
      omega

/-- Claim C3: a broadcast delivers the envelope to exactly the members
whose userId differs from the sender's and whose connection is open;
every delivery carries the broadcast's own event type (so no error is
ever surfaced to the sender), and when all member connections are open
and the sender is a member of a duplicate-free channel, exactly N−1 of
the N members receive it. -/
theorem broadcast_reaches_all_but_sender (chs : Channels)
    (ch sender t : String) (d : Body) (mem : Members)
    (h : objGet chs ch = some mem) :
    broadcastExceptSender chs ch sender t d =
      (mem.filter (fun p => decide (p.1 ≠ sender) && p.2.isOpen)).map
        (fun p => (p.2, ⟨t, d⟩)) ∧
    (∀ e ∈ broadcastExceptSender chs ch sender t d, e.2.type = t) ∧
    ((mem.map (fun p => p.1)).Nodup → sender ∈ mem.map (fun p => p.1) →
      (∀ p ∈ mem, p.2.isOpen = true) →
      (broadcastExceptSender chs ch sender t d).length = mem.length - 1) := by
  refine ⟨broadcast_eq _ _ _ _ _ _ h, broadcast_type _ _ _ _ _, ?_⟩
  intro hn hs hall
  rw [broadcast_eq _ _ _ _ _ _ h, List.length_map]
  have hcong : mem.filter (fun p => decide (p.1 ≠ sender) && p.2.isOpen) =
      mem.filter (fun p => decide (p.1 ≠ sender)) := by
    apply List.filter_congr
    intro p hp
    simp [hall p hp]
  rw [hcong]
  exact length_filter_ne_sub_one mem sender hn hs

/-- Witness for C3: a two-member channel with an open recipient reaches
exactly one member. -/
theorem broadcast_reaches_all_but_sender_witness :
    (broadcastExceptSender
        [("c1", [("alice", ⟨0, true⟩), ("bob", ⟨1, true⟩)])]
        "c1" "bob" "offer_sdp_recieved" (.rawB "S")).length =
      ([("alice", (⟨0, true⟩ : Socket)), ("bob", ⟨1, true⟩)]).length - 1 :=
  (broadcast_reaches_all_but_sender _ "c1" "bob" "offer_sdp_recieved"
    (.rawB "S") [("alice", ⟨0, true⟩), ("bob", ⟨1, true⟩)] (by decide)).2.2
    (by decide) (by decide) (by decide)

end Wss
namespace Wss

/-- With non-falsy fields, a `join` message dispatches to `handleJoin`. -/
theorem onMessage_join_eq (chs : Channels) (s : Socket) (ch uid : String)
    (sdpo cando : Option String) (hch : ch ≠ "") (huid : uid ≠ "") :
    onMessage chs s (.parsed ⟨"join", some ⟨some ch, some uid, sdpo, cando⟩⟩) =
      handleJoin chs s ch uid := by
  simp [onMessage, falsyOpt_some, hch, huid]

/-- Closed form of the `join` branch: the channel's member map after the
join is uniformly `objSet` over the old map (empty when the channel was
absent), and the emissions are the `joined` reply followed by the
`user_joined` broadcast over the updated registry. -/
theorem handleJoin_eq (chs : Channels) (s : Socket) (ch uid : String) :
    handleJoin chs s ch uid =
      (objSet chs ch (objSet ((objGet chs ch).getD []) uid s),
        send s "joined" (.joinedB ch uid
          ((objSet ((objGet chs ch).getD []) uid s).map (fun p => p.1))
          ("Joined channel " ++ ch))
        ++ broadcastExceptSender
            (objSet chs ch (objSet ((objGet chs ch).getD []) uid s))
            ch uid "user_joined"
            (.userB uid ("User " ++ uid ++ " joined the channel"))) := by
  rcases h : objGet chs ch with _ | mem
  · simp [handleJoin, h, objGet_objSet_self, objSet_objSet]
  · simp [handleJoin, h, objGet_objSet_self]

/-- Claim C4: a `join` inserts the (channel, userId) → handle binding
(creating the channel entry if absent, touching no other channel), the
sender receives a `joined` envelope whose `users` field is the channel's
full current member list including the joiner, and every other member
(all connections being open) receives a `user_joined` envelope carrying
the joiner's userId. -/
theorem join_inserts_and_notifies (chs : Channels) (s : Socket)
    (ch uid : String) (sdpo cando : Option String) (hopen : s.isOpen = true)
    (hch : ch ≠ "") (huid : uid ≠ "")
    (hall : ∀ c ∈ chs, ∀ p ∈ c.2, p.2.isOpen = true)
    (mem2 : Members)
    (hmem2 : mem2 = objSet ((objGet chs ch).getD []) uid s) :
    getBinding (onMessage chs s
        (.parsed ⟨"join", some ⟨some ch, some uid, sdpo, cando⟩⟩)).1
        ch uid = some s ∧
    objGet (onMessage chs s
        (.parsed ⟨"join", some ⟨some ch, some uid, sdpo, cando⟩⟩)).1 ch =
      some mem2 ∧
    (∀ ch2, ch2 ≠ ch →
      objGet (onMessage chs s
        (.parsed ⟨"join", some ⟨some ch, some uid, sdpo, cando⟩⟩)).1 ch2 =
      objGet chs ch2) ∧
    uid ∈ mem2.map (fun p => p.1) ∧
    (onMessage chs s
        (.parsed ⟨"join", some ⟨some ch, some uid, sdpo, cando⟩⟩)).2 =
      (s, ⟨"joined", .joinedB ch uid (mem2.map (fun p => p.1))
        ("Joined channel " ++ ch)⟩)
      :: (mem2.filter (fun p => decide (p.1 ≠ uid))).map
          (fun p => (p.2, ⟨"user_joined",
            .userB uid ("User " ++ uid ++ " joined the channel")⟩)) := by
  rw [onMessage_join_eq chs s ch uid sdpo cando hch huid, handleJoin_eq,
    ← hmem2]
  have hget2 : objGet (objSet chs ch mem2) ch = some mem2 :=
    objGet_objSet_self chs ch mem2
  have hbind : objGet mem2 uid = some s := by
    rw [hmem2]; exact objGet_objSet_self _ uid s
  have hall2 : ∀ p ∈ mem2, p.2.isOpen = true := by
    intro p hp
    rw [hmem2] at hp
    rcases mem_objSet_weak hp with h1 | h1
    · rcases hg : objGet chs ch with _ | mem
      · rw [hg] at h1; simp at h1
      · rw [hg] at h1
        exact hall (ch, mem) (objGet_mem hg) p h1
    · rw [h1]; exact hopen
  refine ⟨?_, hget2, ?_, ?_, ?_⟩
  · simp only [getBinding, hget2]
    exact hbind
  · intro ch2 hne
    exact objGet_objSet_ne chs ch ch2 mem2 hne
  · exact List.mem_map.mpr ⟨(uid, s), objGet_mem hbind, rfl⟩
  · rw [broadcast_eq _ _ _ _ _ _ hget2]
    have hfc : mem2.filter (fun p => decide (p.1 ≠ uid) && p.2.isOpen) =
        mem2.filter (fun p => decide (p.1 ≠ uid)) := by
      apply List.filter_congr
      intro p hp
      simp [hall2 p hp]
    rw [hfc]
    simp [send, hopen]

/-- Witness for C4: first join into an empty registry binds alice. -/
theorem join_inserts_and_notifies_witness :
    getBinding (onMessage [] ⟨0, true⟩
        (.parsed ⟨"join", some ⟨some "c1", some "alice", none, none⟩⟩)).1
        "c1" "alice" = some ⟨0, true⟩ :=
  (join_inserts_and_notifies [] ⟨0, true⟩ "c1" "alice" none none rfl
    (by decide) (by decide) (by intro c hc; simp at hc)
    [("alice", ⟨0, true⟩)] (by decide)).1

/-- Claim C5: two successive joins with the same (channel, userId) but
different handles leave exactly one membership entry for that pair,
bound to the second handle, and the second join raises no error. -/
theorem join_twice_overwrites (chs : Channels) (s1 s2 : Socket)
    (ch uid : String) (h12 : s1 ≠ s2) (hch : ch ≠ "") (huid : uid ≠ "")
    (hwf : WF chs) (chs1 : Channels)
    (h1 : chs1 = (onMessage chs s1
      (.parsed ⟨"join", some ⟨some ch, some uid, none, none⟩⟩)).1)
    (mem2 : Members)
    (h2 : objGet (onMessage chs1 s2
      (.parsed ⟨"join", some ⟨some ch, some uid, none, none⟩⟩)).1 ch =
      some mem2) :
    objGet mem2 uid = some s2 ∧
    mem2.countP (fun p => decide (p.1 = uid)) = 1 ∧
    ∀ e ∈ (onMessage chs1 s2
      (.parsed ⟨"join", some ⟨some ch, some uid, none, none⟩⟩)).2,
      e.2.type ≠ "error" := by
  have hm0n : (((objGet chs ch).getD []).map (fun p => p.1)).Nodup := by
    rcases hg : objGet chs ch with _ | mem
    · simp
    · simpa using hwf.2 (ch, mem) (objGet_mem hg)
  rw [onMessage_join_eq chs s1 ch uid none none hch huid, handleJoin_eq]
    at h1
  rw [onMessage_join_eq chs1 s2 ch uid none none hch huid, handleJoin_eq]
    at h2
  have hget1 : objGet chs1 ch =
      some (objSet ((objGet chs ch).getD []) uid s1) := by
    rw [h1]
    exact objGet_objSet_self _ _ _
  rw [hget1] at h2
  simp only [Option.getD_some] at h2
  rw [objGet_objSet_self] at h2
  have hmem2 : mem2 = objSet ((objGet chs ch).getD []) uid s2 := by
    have := h2.symm
    simp only [Option.some.injEq] at this
    rw [this, objSet_objSet]
  refine ⟨?_, ?_, ?_⟩
  · rw [hmem2]; exact objGet_objSet_self _ _ _
  · rw [hmem2]; exact countP_key_objSet _ uid s2 hm0n
  · intro e he
    rw [onMessage_join_eq chs1 s2 ch uid none none hch huid, handleJoin_eq]
      at he
    simp only [List.mem_append] at he
    rcases he with he | he
    · rw [send_type _ _ _ e he]; decide
    · rw [broadcast_type _ _ _ _ _ e he]; decide

/-- Witness for C5: rejoining as alice from a second socket leaves her
bound to it. -/
theorem join_twice_overwrites_witness :
    objGet [("alice", (⟨1, true⟩ : Socket))] "alice" = some ⟨1, true⟩ :=
  (join_twice_overwrites [] ⟨0, true⟩ ⟨1, true⟩ "c1" "alice" (by decide)
    (by decide) (by decide) ⟨by simp, by intro c hc; simp at hc⟩ _ rfl
    [("alice", ⟨1, true⟩)] (by decide)).1

end Wss
namespace Wss

/-- Writing a nonempty member map preserves the invariant. -/
theorem noempty_objSet (chs : Channels) (ch : String) (m : Members)
    (h : NoEmpty chs) (hm : m ≠ []) : NoEmpty (objSet chs ch m) := by
  intro c hc
  rcases mem_objSet_weak hc with h1 | h1
  · exact h c h1
  · rw [h1]; exact hm

/-- Deleting a channel preserves the invariant. -/
theorem noempty_objDel (chs : Channels) (ch : String) (h : NoEmpty chs) :
    NoEmpty (objDel chs ch) :=
  fun c hc => h c (mem_objDel hc)

/-- The `join` branch preserves the invariant. -/
theorem noempty_handleJoin (chs : Channels) (s : Socket) (ch uid : String)
    (h : NoEmpty chs) : NoEmpty (handleJoin chs s ch uid).1 := by
  rw [handleJoin_eq]
  exact noempty_objSet _ _ _ h (objSet_ne_nil _ _ _)

/-- The `quit` branch preserves the invariant. -/
theorem noempty_handleQuit (chs : Channels) (ch uid : String)
    (h : NoEmpty chs) : NoEmpty (handleQuit chs ch uid).1 := by
  rcases hg : objGet chs ch with _ | members
  · simpa [handleQuit, hg] using h
  · rcases hm : objGet members uid with _ | s0
    · simpa [handleQuit, hg, hm] using h
    · simp only [handleQuit, hg, hm]
      by_cases he : objDel members uid = []
      · simpa [he] using noempty_objDel _ _ h
      · simpa [he] using noempty_objSet _ _ _ h he

/-- Routing any message preserves the invariant. -/
theorem noempty_onMessage (chs : Channels) (s : Socket) (msg : RawMessage)
    (h : NoEmpty chs) : NoEmpty (onMessage chs s msg).1 := by
  rcases msg with _ | ⟨t, ob⟩
  · simpa [onMessage] using h
  rcases ob with _ | body
  · simpa [onMessage] using h
  simp only [onMessage]
  by_cases hf : (falsyOpt body.channelName || falsyOpt body.userId) = true
  · simpa [hf] using h
  simp only [Bool.not_eq_true] at hf
  simp only [hf, Bool.false_eq_true, if_false]
  by_cases h1 : t = "join"
  · simpa [h1] using noempty_handleJoin chs s _ _ h
  simp only [h1, if_false]
  by_cases h2 : t = "quit"
  · simpa [h2] using noempty_handleQuit chs _ _ h
  simp only [h2, if_false]
  by_cases h3 : t = "send_offer"
  · simp only [h3, if_true]
    by_cases hs : falsyOpt body.sdp = true <;> simpa [hs] using h
  simp only [h3, if_false]
  by_cases h4 : t = "send_answer"
  · simp only [h4, if_true]
    by_cases hs : falsyOpt body.sdp = true <;> simpa [hs] using h
  simp only [h4, if_false]
  by_cases h5 : t = "send_ice_candidate"
  · simp only [h5, if_true]
    by_cases hs : falsyOpt body.candidate = true <;> simpa [hs] using h
  simpa [h5] using h

/-- Disconnect cleanup preserves the invariant, whatever the snapshot. -/
theorem noempty_clearClientGo (s : Socket) (snapshot : List String)
    (chs : Channels) (h : NoEmpty chs) :
    NoEmpty (clearClientGo s chs snapshot) := by
  induction snapshot generalizing chs with
  | nil => simpa [clearClientGo] using h
  | cons ch rest ih =>
    rcases hg : objGet chs ch with _ | members
    · simpa [clearClientGo, hg] using ih chs h
    · simp only [clearClientGo, hg]
      by_cases hcond :
          clearMembers s members (members.map (fun p => p.1)) = [] ∧
          members ≠ []
      · simp only [if_pos hcond]
        exact ih _ (noempty_objDel _ _ h)
      · simp only [if_neg hcond]
        apply ih
        apply noempty_objSet _ _ _ h
        intro hnil
        exact hcond ⟨hnil, h (ch, members) (objGet_mem hg)⟩

/-- Claim C2: from the empty registry, after any sequence of join, quit
and disconnect-cleanup operations, no channel entry maps to an empty
member map: a channel key is present only with at least one participant.
Since every prefix of a sequence is itself a sequence, the invariant
holds after each operation. -/
theorem no_empty_channels (ops : List Op) :
    NoEmpty (run ops) ∧
    ∀ ch mem, objGet (run ops) ch = some mem → mem ≠ [] := by
  have key : ∀ l : List Op, ∀ chs : Channels, NoEmpty chs →
      NoEmpty (List.foldl step chs l) := by
    intro l
    induction l with
    | nil => intro chs h; simpa using h
    | cons op rest ih =>
      intro chs h
      simp only [List.foldl_cons]
      apply ih
      rcases op with ⟨s, r⟩ | s
      · exact noempty_onMessage _ _ _ h
      · exact noempty_clearClientGo _ _ _ h
  have hrun : NoEmpty (run ops) :=
    key ops [] (by intro c hc; simp at hc)
  exact ⟨hrun, fun ch mem hm => hrun (ch, mem) (objGet_mem hm)⟩

/-- Witness for C2: after one join, the sole channel is nonempty. -/
theorem no_empty_channels_witness :
    [("alice", (⟨0, true⟩ : Socket))] ≠ [] :=
  (no_empty_channels
    [.msg ⟨0, true⟩ (.parsed ⟨"join", some ⟨some "c1", some "alice", none,
      none⟩⟩)]).2 "c1" [("alice", ⟨0, true⟩)] (by decide)

end Wss
namespace Wss

/-- Deleting an entry the filter would drop anyway does not change the
filtered object. -/
theorem filter_objDel_of_get {α : Type} (p : String × α → Bool)
    (l : List (String × α)) (k : String) (v : α)
    (hget : objGet l k = some v) (hp : p (k, v) = false) :
    (objDel l k).filter p = l.filter p := by
  induction l with
  | nil => simp [objGet] at hget
  | cons q rest ih =>
    obtain ⟨k0, v0⟩ := q
    by_cases h : k0 = k
    · subst h
      have hv : v0 = v := by simpa [objGet] using hget
      subst hv
      rw [show objDel ((k0, v0) :: rest) k0 = rest from by simp [objDel]]
      rw [List.filter_cons_of_neg (by simp [hp])]
    · simp only [objGet, if_neg h] at hget
      simp only [objDel, if_neg h]
      rw [List.filter_cons, List.filter_cons, ih hget]

/-- Deleting an entry the filterMap drops does not change the result. -/
theorem filterMap_objDel_of_get {α β : Type} (f : String × α → Option β)
    (l : List (String × α)) (k : String) (v : α)
    (hget : objGet l k = some v) (hf : f (k, v) = none) :
    (objDel l k).filterMap f = l.filterMap f := by
  induction l with
  | nil => simp [objGet] at hget
  | cons q rest ih =>
    obtain ⟨k0, v0⟩ := q
    by_cases h : k0 = k
    · subst h
      have hv : v0 = v := by simpa [objGet] using hget
      subst hv
      rw [show objDel ((k0, v0) :: rest) k0 = rest from by simp [objDel]]
      simp only [List.filterMap_cons, hf]
    · simp only [objGet, if_neg h] at hget
      simp only [objDel, if_neg h]
      rw [List.filterMap_cons, List.filterMap_cons, ih hget]

/-- Overwriting an entry with a filterMap-equivalent value does not
change the result. -/
theorem filterMap_objSet_of_get {α β : Type} (f : String × α → Option β)
    (l : List (String × α)) (k : String) (v v2 : α)
    (hget : objGet l k = some v) (hf : f (k, v2) = f (k, v)) :
    (objSet l k v2).filterMap f = l.filterMap f := by
  induction l with
  | nil => simp [objGet] at hget
  | cons q rest ih =>
    obtain ⟨k0, v0⟩ := q
    by_cases h : k0 = k
    · subst h
      have hv : v0 = v := by simpa [objGet] using hget
      subst hv
      rw [show objSet ((k0, v0) :: rest) k0 v2 = (k0, v2) :: rest from by
        simp [objSet]]
      rw [List.filterMap_cons, List.filterMap_cons, hf]
    · simp only [objGet, if_neg h] at hget
      simp only [objSet, if_neg h]
      rw [List.filterMap_cons, List.filterMap_cons, ih hget]

/-- A filterMap that keeps every element unchanged is the identity. -/
theorem filterMap_eq_self_of {α : Type} (f : α → Option α) (l : List α)
    (h : ∀ a ∈ l, f a = some a) : l.filterMap f = l := by
  induction l with
  | nil => simp
  | cons a rest ih =>
    rw [List.filterMap_cons, h a (List.mem_cons_self _ _)]
    rw [ih (fun b hb => h b (List.mem_cons_of_mem _ hb))]

/-- With unique keys, reading a filtered object tests the predicate at
the key's entry. -/
theorem objGet_filter {α : Type} (p : String × α → Bool)
    (l : List (String × α)) (hn : (l.map (fun q => q.1)).Nodup)
    (k : String) :
    objGet (l.filter p) k =
      (objGet l k).bind (fun v => if p (k, v) = true then some v else none) := by
  induction l with
  | nil => simp [objGet]
  | cons q rest ih =>
    obtain ⟨k0, v0⟩ := q
    simp only [List.map_cons, List.nodup_cons] at hn
    by_cases hp : p (k0, v0) = true
    · rw [List.filter_cons_of_pos hp]
      by_cases h : k0 = k
      · subst h
        simp [objGet, hp]
      · simp [objGet, h, ih hn.2]
    · rw [List.filter_cons_of_neg (by simpa using hp)]
      rw [ih hn.2]
      by_cases h : k0 = k
      · subst h
        have h0 : objGet rest k0 = none := (objGet_none_iff _ _).mpr hn.1
        simp [objGet, h0, hp]
      · simp [objGet, h]

/-- With unique keys, reading a key-preserving filterMap is the bind of
the original read. -/
theorem objGet_filterMap_keyed {α β : Type} (g : String × α → Option β)
    (l : List (String × α)) (hn : (l.map (fun p => p.1)).Nodup)
    (k : String) :
    objGet (l.filterMap (fun c => (g c).map (fun b => (c.1, b)))) k =
      (objGet l k).bind (fun v => g (k, v)) := by
  induction l with
  | nil => simp [objGet]
  | cons q rest ih =>
    obtain ⟨k0, v0⟩ := q
    simp only [List.map_cons, List.nodup_cons] at hn
    rcases hG : g (k0, v0) with _ | b
    · simp only [List.filterMap_cons, hG, Option.map_none']
      rw [ih hn.2]
      by_cases h : k0 = k
      · subst h
        have h0 : objGet rest k0 = none := (objGet_none_iff _ _).mpr hn.1
        simp [objGet, h0, hG]
      · simp [objGet, h]
    · simp only [List.filterMap_cons, hG, Option.map_some']
      by_cases h : k0 = k
      · subst h
        simp [objGet, hG]
      · simp [objGet, h, ih hn.2]

/-- The inner cleanup loop, run over a snapshot covering every entry
bound to the socket, removes exactly those entries. -/
theorem clearMembers_spec (s : Socket) (uids : List String)
    (members : Members) (hn : (members.map (fun p => p.1)).Nodup)
    (hcov : ∀ p ∈ members, p.2 = s → p.1 ∈ uids) :
    clearMembers s members uids =
      members.filter (fun p => decide (p.2 ≠ s)) := by
  induction uids generalizing members with
  | nil =>
    simp only [clearMembers]
    symm
    apply List.filter_eq_self.mpr
    intro p hp
    simp only [decide_eq_true_eq]
    intro hps
    exact absurd (hcov p hp hps) (List.not_mem_nil _)
  | cons uid rest ih =>
    rcases hg : objGet members uid with _ | v
    · simp only [clearMembers, hg]
      apply ih members hn
      intro p hp hps
      rcases List.mem_cons.mp (hcov p hp hps) with h1 | h1
      · exfalso
        rw [objGet_none_iff] at hg
        exact hg (h1 ▸ List.mem_map.mpr ⟨p, hp, rfl⟩)
      · exact h1
    · by_cases hv : v = s
      · simp only [clearMembers, hg, if_pos hv]
        rw [ih (objDel members uid)
          (hn.sublist ((objDel_sublist members uid).map _))
          ?cov]
        · exact filter_objDel_of_get _ members uid v hg (by simp [hv])
        case cov =>
          intro p hp hps
          rcases List.mem_cons.mp
              (hcov p (mem_objDel hp) hps) with h1 | h1
          · exact absurd (h1 ▸ List.mem_map.mpr ⟨p, hp, rfl⟩)
              (keys_objDel_not_mem hn)
          · exact h1
      · simp only [clearMembers, hg, if_neg hv]
        apply ih members hn
        intro p hp hps
        rcases List.mem_cons.mp (hcov p hp hps) with h1 | h1
        · exfalso
          have hpm : (uid, p.2) ∈ members := by
            rw [← h1]
            simpa using hp
          have := objGet_of_mem_nodup hn hpm
          rw [hg] at this
          simp only [Option.some.injEq] at this
          exact hv (this ▸ hps)
        · exact h1

/-- The outer cleanup loop, run over a snapshot covering every channel
holding the socket, leaves each channel's members filtered and drops
channels emptied by the removals. -/
theorem clearClientGo_spec (s : Socket) (snapshot : List String)
    (chs : Channels) (hnd : (chs.map (fun p => p.1)).Nodup)
    (hm : ∀ c ∈ chs, (c.2.map (fun p => p.1)).Nodup)
    (hne : NoEmpty chs)
    (hcov : ∀ c ∈ chs, (∃ p ∈ c.2, p.2 = s) → c.1 ∈ snapshot) :
    clearClientGo s chs snapshot =
      chs.filterMap (fun c =>
        if c.2.filter (fun p => decide (p.2 ≠ s)) = [] then none
        else some (c.1, c.2.filter (fun p => decide (p.2 ≠ s)))) := by
  induction snapshot generalizing chs with
  | nil =>
    simp only [clearClientGo]
    symm
    apply filterMap_eq_self_of
    intro c hc
    have hclean : c.2.filter (fun p => decide (p.2 ≠ s)) = c.2 := by
      apply List.filter_eq_self.mpr
      intro p hp
      simp only [decide_eq_true_eq]
      intro hps
      exact absurd (hcov c hc ⟨p, hp, hps⟩) (List.not_mem_nil _)
    rw [hclean, if_neg (hne c hc)]
  | cons ch rest ih =>
    rcases hg : objGet chs ch with _ | members
    · simp only [clearClientGo, hg]
      apply ih chs hnd hm hne
      intro c hc hex
      rcases List.mem_cons.mp (hcov c hc hex) with h1 | h1
      · exfalso
        rw [objGet_none_iff] at hg
        exact hg (h1 ▸ List.mem_map.mpr ⟨c, hc, rfl⟩)
      · exact h1
    · have hcm : (ch, members) ∈ chs := objGet_mem hg
      have hmn : (members.map (fun p => p.1)).Nodup := by
        simpa using hm _ hcm
      have hmne : members ≠ [] := hne _ hcm
      have hclr : clearMembers s members (members.map (fun p => p.1)) =
          members.filter (fun p => decide (p.2 ≠ s)) :=
        clearMembers_spec s _ members hmn
          (fun p hp _ => List.mem_map.mpr ⟨p, hp, rfl⟩)
      simp only [clearClientGo, hg, hclr]
      by_cases hM : members.filter (fun p => decide (p.2 ≠ s)) = []
      · rw [if_pos ⟨hM, hmne⟩]
        rw [ih (objDel chs ch)
          (hnd.sublist ((objDel_sublist chs ch).map _))
          (fun c hc => hm c (mem_objDel hc))
          (noempty_objDel _ _ hne)
          ?cov]
        · exact filterMap_objDel_of_get _ chs ch members hg
            (by rw [if_pos hM])
        case cov =>
          intro c hc hex
          rcases List.mem_cons.mp
              (hcov c (mem_objDel hc) hex) with h1 | h1
          · exact absurd (h1 ▸ List.mem_map.mpr ⟨c, hc, rfl⟩)
              (keys_objDel_not_mem hnd)
          · exact h1
      · rw [if_neg (fun hand => hM hand.1)]
        have hchk : ch ∈ chs.map (fun p => p.1) := by
          by_contra hcon
          rw [← objGet_none_iff] at hcon
          rw [hcon] at hg
          exact Option.noConfusion hg
        have hfid : (members.filter (fun p => decide (p.2 ≠ s))).filter
            (fun p => decide (p.2 ≠ s)) =
            members.filter (fun p => decide (p.2 ≠ s)) := by
          apply List.filter_eq_self.mpr
          intro p hp
          exact (List.mem_filter.mp hp).2
        rw [ih (objSet chs ch (members.filter (fun p => decide (p.2 ≠ s))))
          ?g1 ?g2 ?g3 ?g4]
        · apply filterMap_objSet_of_get _ chs ch members _ hg
          rw [if_neg hM]
          rw [hfid, if_neg hM]
        case g1 =>
          rw [keys_objSet_of_mem _ hchk]
          exact hnd
        case g2 =>
          intro c hc
          rcases mem_objSet_weak hc with h1 | h1
          · exact hm c h1
          · rw [h1]
            exact hmn.sublist ((List.filter_sublist members).map _)
        case g3 => exact noempty_objSet _ _ _ hne hM
        case g4 =>
          intro c hc hex
          rcases mem_objSet_nodup hnd hc with ⟨h1, h2⟩ | h1
          · rcases List.mem_cons.mp (hcov c h1 hex) with h3 | h3
            · exact absurd h3 h2
            · exact h3
          · exfalso
            obtain ⟨p, hp, hps⟩ := hex
            rw [h1] at hp
            simp only at hp
            have := (List.mem_filter.mp hp).2
            simp only [decide_eq_true_eq] at this
            exact this hps

/-- Disconnect cleanup in closed form: every channel keeps exactly its
members not bound to the closing socket, and channels emptied by the
removals disappear. -/
theorem clearClient_spec (chs : Channels) (s : Socket) (hwf : WF chs)
    (hne : NoEmpty chs) :
    clearClient chs s =
      chs.filterMap (fun c =>
        if c.2.filter (fun p => decide (p.2 ≠ s)) = [] then none
        else some (c.1, c.2.filter (fun p => decide (p.2 ≠ s)))) :=
  clearClientGo_spec s _ chs hwf.1 hwf.2 hne
    (fun c hc _ => List.mem_map.mpr ⟨c, hc, rfl⟩)

end Wss
namespace Wss

/-- Claim C1 (amended): when a connection closes, every (channel, userId)
binding whose handle equals that connection is removed — each channel
keeps exactly its other members, the channel entry disappearing if it
becomes empty — but the close handler emits nothing: no `user_left`
envelope reaches the remaining members. -/
theorem close_removes_bindings_no_user_left (chs : Channels) (s : Socket)
    (hwf : WF chs) (hne : NoEmpty chs) :
    (onClose chs s).2 = [] ∧
    (onClose chs s).1 = chs.filterMap (fun c =>
      if c.2.filter (fun p => decide (p.2 ≠ s)) = [] then none
      else some (c.1, c.2.filter (fun p => decide (p.2 ≠ s)))) ∧
    (∀ ch uid h0, getBinding chs ch uid = some h0 → h0 = s →
      getBinding (onClose chs s).1 ch uid = none) ∧
    (∀ ch uid h0, getBinding chs ch uid = some h0 → h0 ≠ s →
      getBinding (onClose chs s).1 ch uid = some h0) ∧
    NoEmpty (onClose chs s).1 := by
  have hspec := clearClient_spec chs s hwf hne
  have hbridge : (fun c : String × Members =>
      if c.2.filter (fun p => decide (p.2 ≠ s)) = [] then none
      else some (c.1, c.2.filter (fun p => decide (p.2 ≠ s)))) =
      (fun c : String × Members =>
        (if c.2.filter (fun p => decide (p.2 ≠ s)) = [] then none
         else some (c.2.filter (fun p => decide (p.2 ≠ s)))).map
          (fun m => (c.1, m))) := by
    funext c
    by_cases hcc : c.2.filter (fun p => decide (p.2 ≠ s)) = []
    · rw [if_pos hcc, if_pos hcc]
      rfl
    · rw [if_neg hcc, if_neg hcc]
      rfl
  have hget : ∀ ch, objGet (clearClient chs s) ch =
      (objGet chs ch).bind (fun mem =>
        if mem.filter (fun p => decide (p.2 ≠ s)) = [] then none
        else some (mem.filter (fun p => decide (p.2 ≠ s)))) := by
    intro ch
    rw [hspec, hbridge]
    exact objGet_filterMap_keyed
      (fun c => if c.2.filter (fun p => decide (p.2 ≠ s)) = [] then none
                else some (c.2.filter (fun p => decide (p.2 ≠ s))))
      chs hwf.1 ch
  refine ⟨rfl, hspec, ?_, ?_, ?_⟩
  · intro ch uid h0 hb hs0
    simp only [onClose, getBinding] at hb ⊢
    rcases hgc : objGet chs ch with _ | mem
    · rw [hgc] at hb
      exact Option.noConfusion hb
    · rw [hgc] at hb
      have hb2 : objGet mem uid = some h0 := hb
      have hmn : (mem.map (fun p => p.1)).Nodup := by
        simpa using hwf.2 (ch, mem) (objGet_mem hgc)
      have hres : objGet (clearClient chs s) ch =
          (if mem.filter (fun p => decide (p.2 ≠ s)) = [] then none
           else some (mem.filter (fun p => decide (p.2 ≠ s)))) := by
        rw [hget ch, hgc]
        rfl
      by_cases hM : mem.filter (fun p => decide (p.2 ≠ s)) = []
      · rw [if_pos hM] at hres
        rw [hres]
      · rw [if_neg hM] at hres
        rw [hres]
        show objGet (mem.filter (fun p => decide (p.2 ≠ s))) uid = none
        rw [objGet_filter _ mem hmn uid, hb2]
        simp [hs0]
  · intro ch uid h0 hb hs0
    simp only [onClose, getBinding] at hb ⊢
    rcases hgc : objGet chs ch with _ | mem
    · rw [hgc] at hb
      exact Option.noConfusion hb
    · rw [hgc] at hb
      have hb2 : objGet mem uid = some h0 := hb
      have hmn : (mem.map (fun p => p.1)).Nodup := by
        simpa using hwf.2 (ch, mem) (objGet_mem hgc)
      have hsur : (uid, h0) ∈ mem.filter (fun p => decide (p.2 ≠ s)) :=
        List.mem_filter.mpr ⟨objGet_mem hb2, by simp [hs0]⟩
      have hM : mem.filter (fun p => decide (p.2 ≠ s)) ≠ [] :=
        List.ne_nil_of_mem hsur
      have hres : objGet (clearClient chs s) ch =
          some (mem.filter (fun p => decide (p.2 ≠ s))) := by
        rw [hget ch, hgc]
        show (if mem.filter (fun p => decide (p.2 ≠ s)) = [] then none
          else some (mem.filter (fun p => decide (p.2 ≠ s)))) =
          some (mem.filter (fun p => decide (p.2 ≠ s)))
        rw [if_neg hM]
      rw [hres]
      show objGet (mem.filter (fun p => decide (p.2 ≠ s))) uid = some h0
      rw [objGet_filter _ mem hmn uid, hb2]
      simp [hs0]
  · exact noempty_clearClientGo s _ chs hne

/-- Witness for C1 (amended) at a two-member channel. -/
theorem close_removes_bindings_no_user_left_witness :
    (onClose [("c1", [("alice", (⟨0, true⟩ : Socket)), ("bob", ⟨1, true⟩)])]
      ⟨1, true⟩).2 = [] := by
  have hwf : WF
      [("c1", [("alice", (⟨0, true⟩ : Socket)), ("bob", ⟨1, true⟩)])] := by
    constructor
    · simp
    · intro c hc
      simp only [List.mem_singleton] at hc
      subst hc
      decide
  have hne : NoEmpty
      [("c1", [("alice", (⟨0, true⟩ : Socket)), ("bob", ⟨1, true⟩)])] := by
    intro c hc
    simp only [List.mem_singleton] at hc
    subst hc
    decide
  exact (close_removes_bindings_no_user_left _ ⟨1, true⟩ hwf hne).1

/-- Counterexample to C1 as stated: closing bob's connection removes his
binding and leaves alice as a remaining member of the channel, yet the
close handler emits no envelope at all — in particular no `user_left`
reaches alice. -/
theorem close_no_user_left_counterexample :
    getBinding [("c1", [("alice", (⟨0, true⟩ : Socket)), ("bob", ⟨1, true⟩)])]
      "c1" "bob" = some ⟨1, true⟩ ∧
    getBinding (onClose
      [("c1", [("alice", ⟨0, true⟩), ("bob", ⟨1, true⟩)])] ⟨1, true⟩).1
      "c1" "bob" = none ∧
    objGet (onClose
      [("c1", [("alice", ⟨0, true⟩), ("bob", ⟨1, true⟩)])] ⟨1, true⟩).1
      "c1" = some [("alice", ⟨0, true⟩)] ∧
    ¬∃ e ∈ (onClose
      [("c1", [("alice", ⟨0, true⟩), ("bob", ⟨1, true⟩)])] ⟨1, true⟩).2,
      e.2.type = "user_left" := by
  decide

end Wss
